import Mathlib

/-!
# r2ghidra core plugin (`src/core_ghidra.cpp`)

A shallow embedding of the command layer of the plugin: the configuration
adapter `ApplyPrintCConfig`, the driver `decompile` with its two
post-processing branches (offset annotation and statement cleaning) and the
command dispatch `_cmd` / `r2ghidra_cmd`.

Conventions of the embedding.

* A `std::string` or C string is a `List Char`, one element per `char`.
* `size_t` and `ut64` values are natural numbers; arithmetic that can wrap is
  written with an explicit `% 2 ^ 64`.
* The decompilation engine, the host's function database and the host's
  configuration store are not part of the source file.  Whatever they return
  during one invocation is supplied as data (`Engine`, `RConfig`).
* Everything the driver does that is visible from outside is recorded, in
  order, as a list of `Event`s.
-/

namespace R2Ghidra

/-! ## Strings -/

/-- One `char` per element. -/
abbrev Str := List Char

/-- The value `std::string::npos`, also what `-1` converts to as a `size_t`. -/
def npos : Nat := 2 ^ 64 - 1

/-- The scan behind `std::string::find`: `i` is the index of the head of the
remaining text. -/
def findFrom (pat : Str) : Str → Nat → Nat
  | [], i => if pat = [] then i else npos
  | c :: cs, i => if pat.isPrefixOf (c :: cs) then i else findFrom pat cs (i + 1)

/-- Model of `s.find(pat)`: index of the first occurrence, `npos` when there is none. -/
def find (s pat : Str) : Nat := findFrom pat s 0

/-- Model of `s.erase(pos, n)`: throws `std::out_of_range` (here `none`) when
`pos > s.size()`, otherwise removes `min(n, s.size() - pos)` characters at `pos`. -/
def erase (s : Str) (pos n : Nat) : Option Str :=
  if s.length < pos then none
  else some (s.take pos ++ s.drop (pos + min n (s.length - pos)))

/-- Model of `s.c_str()` read by a consumer of C strings: the text up to the first NUL. -/
def c_str (s : Str) : Str := s.takeWhile (fun c => c != '\x00')

/-- Digit of `std::hex` output (lowercase). -/
def hexDigit (d : Nat) : Char :=
  if d < 10 then Char.ofNat (48 + d) else Char.ofNat (87 + d)

/-- Hexadecimal digits of `n`, most significant first, no leading zeros. -/
def toHex : Nat → Nat → Str
  | 0, _ => []
  | fuel + 1, n =>
    if n < 16 then [hexDigit n] else toHex fuel (n / 16) ++ [hexDigit (n % 16)]

/-- Model of `stream << std::hex << v` for a 64-bit `v` (at most 16 digits). -/
def hex64 (v : Nat) : Str := toHex 16 (v % 2 ^ 64)

/-- Model of `std::setfill('0') << std::setw(10)` applied to the next item:
pad on the left to a width of at least ten. -/
def setw10 (item : Str) : Str := List.replicate (10 - item.length) '0' ++ item

/-- Characters `0`-`9` and `a`-`f`. -/
def isLowerHexDigit (c : Char) : Bool :=
  (48 ≤ c.toNat && c.toNat ≤ 57) || (97 ≤ c.toNat && c.toNat ≤ 102)

/-- Value of one lowercase hexadecimal digit. -/
def hexDigitValue (c : Char) : Nat :=
  if c.toNat ≤ 57 then c.toNat - 48 else c.toNat - 87

/-- Value of a string of lowercase hexadecimal digits. -/
def hexValue (digits : Str) : Nat :=
  digits.foldl (fun acc c => 16 * acc + hexDigitValue c) 0

/-- The pattern occurs in `s` at index `k` and at no smaller index. -/
def FirstAt (pat s : Str) (k : Nat) : Prop :=
  pat <+: s.drop k ∧ ∀ j, j < k → ¬ pat <+: s.drop j

/-! ## Configuration variables -/

def CMD_PREFIX : Str := "pdg".toList

def CFG_PREFIX : Str := "r2ghidra".toList

/-- The host's configuration store as far as `r_config_get_i` reads it: the
integer value of every node, and the value the host returns for a name that
has no node. -/
structure RConfig where
  nodes : List (Str × Nat)
  absent : Nat

/-- Host function `r_config_get_i`. -/
def r_config_get_i (cfg : RConfig) (name : Str) : Nat :=
  ((cfg.nodes.lookup name).getD cfg.absent) % 2 ^ 64

structure ConfigVar where
  name : Str
  defval : Str
  desc : Str

/-- The constructor of `ConfigVar`: the name gets the common prefix. -/
def ConfigVar.new (var defval desc : Str) : ConfigVar :=
  { name := CFG_PREFIX ++ ".".toList ++ var, defval := defval, desc := desc }

def ConfigVar.GetInt (v : ConfigVar) (cfg : RConfig) : Nat := r_config_get_i cfg v.name

def ConfigVar.GetBool (v : ConfigVar) (cfg : RConfig) : Bool := v.GetInt cfg != 0

def cfg_var_sleighhome : ConfigVar := ConfigVar.new "sleighhome".toList "".toList "SLEIGHHOME".toList
def cfg_var_cmt_cpp : ConfigVar := ConfigVar.new "cmt.cpp".toList "true".toList "C++ comment style".toList
def cfg_var_cmt_indent : ConfigVar := ConfigVar.new "cmt.indent".toList "4".toList "Comment indent".toList
def cfg_var_nl_brace : ConfigVar :=
  ConfigVar.new "nl.brace".toList "false".toList "Newline before opening '\x7b'".toList
def cfg_var_nl_else : ConfigVar := ConfigVar.new "nl.else".toList "false".toList "Newline before else".toList
def cfg_var_indent : ConfigVar := ConfigVar.new "indent".toList "4".toList "Indent increment".toList
def cfg_var_linelen : ConfigVar := ConfigVar.new "linelen".toList "120".toList "Max line length".toList

/-! ## Render configuration adapter -/

/-- Conversion of a `ut64` argument to the `int4` parameter of an engine setter. -/
def toInt4 (v : Nat) : Int :=
  if v % 2 ^ 32 < 2 ^ 31 then ((v % 2 ^ 32 : Nat) : Int) else ((v % 2 ^ 32 : Nat) : Int) - 2 ^ 32

/-- The part of the engine's `PrintC` object the plugin writes to.  Each setter
called by the plugin is taken as a plain store into the field of its name. -/
structure PrintC where
  cppStyleComments : Bool
  spaceAfterComma : Bool
  newlineBeforeOpeningBrace : Bool
  newlineBeforeElse : Bool
  newlineAfterPrototype : Bool
  indentIncrement : Int
  lineCommentIndent : Int
  maxLineSize : Int
  xml : Bool
deriving DecidableEq, Repr

/-- `ApplyPrintCConfig(cfg, print_c)`; `none` is the null pointer. -/
def ApplyPrintCConfig (cfg : RConfig) (print_c : Option PrintC) : Option PrintC :=
  match print_c with
  | none => none
  | some p =>
    let p := if cfg_var_cmt_cpp.GetBool cfg then { p with cppStyleComments := true }
             else { p with cppStyleComments := false }
    let p := { p with spaceAfterComma := true }
    let p := { p with newlineBeforeOpeningBrace := cfg_var_nl_brace.GetBool cfg }
    let p := { p with newlineBeforeElse := cfg_var_nl_else.GetBool cfg }
    let p := { p with newlineAfterPrototype := false }
    let p := { p with indentIncrement := toInt4 (cfg_var_indent.GetInt cfg) }
    let p := { p with lineCommentIndent := toInt4 (cfg_var_cmt_indent.GetInt cfg) }
    let p := { p with maxLineSize := toInt4 (cfg_var_linelen.GetInt cfg) }
    some p

/-! ## Offset annotation (`DecompileMode::OFFSET`) -/

/-- Model of `getline(stream, line)` on the unread rest of the stream: fails at
end of input, otherwise yields the text up to the next newline and the rest
after that newline. -/
def getline (stream : Str) : Option (Str × Str) :=
  if stream = [] then none
  else some (stream.takeWhile (fun c => c != '\n'),
             (stream.dropWhile (fun c => c != '\n')).drop 1)

/-- All lines successive `getline` calls deliver (at most `fuel` of them). -/
def getlines : Nat → Str → List Str
  | 0, _ => []
  | fuel + 1, stream =>
    match getline stream with
    | none => []
    | some (line, rest) => line :: getlines fuel rest

/-- What one pass through the loop body appends to `line_stream`. -/
def annotateLine (addrs : List Nat) (line : Str) : Str :=
  match addrs with
  | front :: _ =>
    "    ".toList ++ ("0x".toList ++ setw10 (hex64 front)) ++ "    |".toList ++ line ++ "\n".toList
  | [] => "                    |".toList ++ line ++ "\n".toList

/-- The loop `while (getline(out_stream, line))` of the OFFSET branch; the
result lists what each pass appends to `line_stream`. -/
def offsetLoop : Nat → Str → List (List Nat) → Nat → List Str
  | 0, _, _, _ => []
  | fuel + 1, out_stream, offsets, ln =>
    match getline out_stream with
    | none => []
    | some (line, rest) =>
      if offsets.length ≤ ln then []
      else annotateLine (offsets.getD ln []) line :: offsetLoop fuel rest offsets (ln + 1)

/-- The pieces written to `line_stream` for a rendered text; every `getline`
consumes at least one character, so `length + 1` passes are enough. -/
def offsetChunks (text : Str) (offsets : List (List Nat)) : List Str :=
  offsetLoop (text.length + 1) text offsets 0

/-- The lines of the rendered text as `getline` delivers them. -/
def renderedLines (text : Str) : List Str := getlines (text.length + 1) text

/-- The argument of `r_cons_print` in the OFFSET branch: `line_stream.str().c_str()`. -/
def offsetPayload (text : Str) (offsets : List (List Nat)) : Str :=
  c_str (offsetChunks text offsets).flatten

/-- A line starts with four spaces, `0x`, ten lowercase hexadecimal digits, four spaces and a bar. -/
def hasAddressField (line : Str) : Bool :=
  line.take 6 == "    0x".toList
    && ((line.drop 6).take 10).length == 10
    && ((line.drop 6).take 10).all isLowerHexDigit
    && (line.drop 16).take 5 == "    |".toList

/-- A line starts with twenty spaces and a bar. -/
def hasBlankField (line : Str) : Bool :=
  line.take 21 == "                    |".toList

/-! ## Statement cleaning (`DecompileMode::STATEMENTS`) -/

def R2_OFFSET_START : Str := "R2_OFFSET_START".toList

def R2_OFFSET_STOP : Str := "R2_OFFSET_STOP".toList

/-- The erase-remove idiom `s.erase(std::remove(s.begin(), s.end(), c), s.end())` for newline. -/
def removeNewlines (s : Str) : Str := s.filter (fun c => c != '\n')

/-- The cleaning of one statement text in the STATEMENTS branch; `none` is the
`std::out_of_range` that `erase` can throw. -/
def cleanStatement (statement : Str) : Option Str :=
  let start_tag := find statement R2_OFFSET_START
  let erased :=
    if start_tag ≠ npos then
      let end_tag := (find statement R2_OFFSET_STOP + 15) % 2 ^ 64
      erase statement start_tag ((end_tag + 2 ^ 64 - start_tag) % 2 ^ 64)
    else some statement
  erased.map removeNewlines

/-- The second line written to `comment_stream`, without its final newline. -/
def commentDirective (statement : Str) : Str :=
  "\"CC ".toList ++ c_str statement ++ "\"".toList

/-- The argument of `r_cons_print` for one entry of the statements map. -/
def statementRecord (addr : Nat) (raw : Str) : Option Str :=
  (cleanStatement raw).map (fun statement =>
    c_str ("s ".toList ++ "0x".toList ++ hex64 addr ++ "\n".toList
      ++ commentDirective statement ++ "\n".toList))

/-! ## Decompilation driver -/

inductive DecompileMode
  | DEFAULT | XML | DEBUG_XML | OFFSET | STATEMENTS
deriving DecidableEq, Repr

/-- The engine's handle of one function: its address, an engine-side state
that `perform` rewrites, and the warning headers attached so far. -/
structure Funcdata where
  addr : Nat
  state : Nat
  headers : List Str
deriving DecidableEq, Repr

/-- `func->warningHeader(msg)`. -/
def Funcdata.warningHeader (func : Funcdata) (msg : Str) : Funcdata :=
  { func with headers := func.headers ++ [msg] }

/-- What `print_with_offsets->docFunction` leaves behind: the text written to
the output stream, the result of `getOffsets()` and the entries of
`getStatementsMap()` in iteration order. -/
structure Rendering where
  text : Str
  offsets : List (List Nat)
  statements : List (Nat × Str)

/-- Results of the engine calls made by `decompile` during one invocation; an
`Except.error` is a thrown `LowlevelError` with its `explain` text. -/
structure Engine where
  init : Except Str Unit
  print : PrintC
  print_with_offsets : PrintC
  findFunction : Nat → Except Str (Option Funcdata)
  perform : Funcdata → Except Str (Int × Funcdata)
  getWarnings : List Str
  saveXmlFunc : Funcdata → Except Str Str
  docFunction : PrintC → Funcdata → Except Str Str
  docFunctionWithOffsets : PrintC → Funcdata → Except Str Rendering
  saveXmlArch : Except Str Str

/-- The host state `decompile` reads: the configuration store, the address of
the function `r_anal_get_fcn_in` finds at the current offset (if any), and the
engine. -/
structure RCore where
  config : RConfig
  fcn_in : Option Nat
  engine : Engine

inductive EngineCall
  | init | configure | findFunction | perform | warningHeader | setXML | saveXmlFunc
  | docFunction | docFunctionWithOffsets | saveXmlArch | getOffsets | getStatementsMap
deriving DecidableEq, Repr

/-- Everything observable of one command, in order. -/
inductive Event
  | eprintf (msg : Str)
  | r_cons_print (payload : Str)
  | r_cons_cmd_help (help : List Str)
  | engine (call : EngineCall)
deriving DecidableEq, Repr

/-- How the `try` block of `decompile` is left. -/
inductive Outcome
  | done
  | lowlevel (explain : Str)
  | out_of_range
deriving DecidableEq, Repr

/-- The diagnostics among the events. -/
def diagnostics (t : List Event) : List Str :=
  t.filterMap (fun e => match e with
    | .eprintf msg => some msg
    | _ => none)

/-- The payloads handed to `r_cons_print` among the events. -/
def payloads (t : List Event) : List Str :=
  t.filterMap (fun e => match e with
    | .r_cons_print payload => some payload
    | _ => none)

/-- The engine calls among the events. -/
def engineCalls (t : List Event) : List EngineCall :=
  t.filterMap (fun e => match e with
    | .engine call => some call
    | _ => none)

/-- The loop over `getStatementsMap()` of the STATEMENTS branch. -/
def statementsLoop : List (Nat × Str) → List Event × Outcome
  | [] => ([], .done)
  | (addr, raw) :: rest =>
    match statementRecord addr raw with
    | none => ([], .out_of_range)
    | some record =>
      ((Event.r_cons_print record) :: (statementsLoop rest).1, (statementsLoop rest).2)

/-- Lines 144-218 of `decompile`: render by mode and post-process. -/
def renderAndPrint (arch : Engine) (mode : DecompileMode) (print r2_print_c : PrintC)
    (func : Funcdata) : List Event × Outcome :=
  match mode with
  | .XML =>
    match arch.saveXmlFunc func with
    | .error e => ([.engine .setXML, .engine .saveXmlFunc], .lowlevel e)
    | .ok fxml =>
      match arch.docFunction { print with xml := true } func with
      | .error e => ([.engine .setXML, .engine .saveXmlFunc, .engine .docFunction], .lowlevel e)
      | .ok text =>
        ([.engine .setXML, .engine .saveXmlFunc, .engine .docFunction,
          .r_cons_print (c_str ("<result><function>".toList ++ fxml ++ "</function><code>".toList
            ++ text ++ "</code></result>".toList))], .done)
  | .DEFAULT =>
    match arch.docFunction print func with
    | .error e => ([.engine .docFunction], .lowlevel e)
    | .ok text => ([.engine .docFunction, .r_cons_print (c_str text)], .done)
  | .DEBUG_XML =>
    match arch.saveXmlArch with
    | .error e => ([.engine .saveXmlArch], .lowlevel e)
    | .ok doc => ([.engine .saveXmlArch, .r_cons_print (c_str doc)], .done)
  | .OFFSET =>
    match arch.docFunctionWithOffsets r2_print_c func with
    | .error e => ([.engine .docFunctionWithOffsets], .lowlevel e)
    | .ok r =>
      ([.engine .docFunctionWithOffsets, .engine .getOffsets,
        .r_cons_print (offsetPayload r.text r.offsets)], .done)
  | .STATEMENTS =>
    match arch.docFunctionWithOffsets r2_print_c func with
    | .error e => ([.engine .docFunctionWithOffsets], .lowlevel e)
    | .ok r =>
      ([.engine .docFunctionWithOffsets, .engine .getStatementsMap]
        ++ (statementsLoop r.statements).1, (statementsLoop r.statements).2)

/-- Lines 112-218 of `decompile`: the body of the `try` block. -/
def decompileTry (core : RCore) (mode : DecompileMode) (function : Nat) :
    List Event × Outcome :=
  let arch := core.engine
  match arch.init with
  | .error e => ([.engine .init], .lowlevel e)
  | .ok _ =>
    let r2_print_c :=
      (ApplyPrintCConfig core.config (some arch.print_with_offsets)).getD arch.print_with_offsets
    let print := (ApplyPrintCConfig core.config (some arch.print)).getD arch.print
    let t : List Event :=
      [.engine .init, .engine .configure, .engine .configure, .engine .findFunction]
    match arch.findFunction function with
    | .error e => (t, .lowlevel e)
    | .ok none => (t ++ [.eprintf "No function in Scope\n".toList], .done)
    | .ok (some func) =>
      match arch.perform func with
      | .error e => (t ++ [.engine .perform], .lowlevel e)
      | .ok (res, func) =>
        let t := t ++ [.engine .perform]
          ++ (if res < 0 then [.eprintf "break\n".toList] else [])
        let t := t ++ arch.getWarnings.map (fun _ => Event.engine .warningHeader)
        let func := arch.getWarnings.foldl
          (fun f warning => f.warningHeader ("[r2ghidra] ".toList ++ warning)) func
        (t ++ (renderAndPrint arch mode print r2_print_c func).1,
          (renderAndPrint arch mode print r2_print_c func).2)

/-- `decompile(core, mode)`: the events it causes.  A `LowlevelError` is caught
and reported; nothing else is caught. -/
def decompile (core : RCore) (mode : DecompileMode) : List Event :=
  match core.fcn_in with
  | none => [.eprintf "No function\n".toList]
  | some function =>
    match decompileTry core mode function with
    | (t, .lowlevel explain) =>
      t ++ [.eprintf ("Ghidra Decompiler Error: ".toList ++ c_str explain ++ "\n".toList)]
    | (t, _) => t

/-! ## Command dispatch -/

/-- The `help` array of `print_usage`, without the terminating `NULL`. -/
def usageHelp : List Str :=
  ["Usage: pdg", "", "# Native Ghidra decompiler plugin",
   "pdg", "", "# Decompile current function with the Ghidra decompiler",
   "pdg", "d", "# Dump the debug XML Dump",
   "pdg", "x", "# Dump the XML of the current decompiled function",
   "pdg", "o", "# Decompile current function side by side with offsets",
   "pdg", "*", "# Decompiled code is returned to r2 as comment",
   "Environment:", "", "",
   "%SLEIGHHOME", "", "# Path to ghidra build root directory"].map String.toList

def print_usage : List Event := [.r_cons_cmd_help usageHelp]

/-- `_cmd(core, input)`; `*input` is the first character, NUL at the end of the string. -/
def _cmd (core : RCore) (input : Str) : List Event :=
  let c := input.headD '\x00'
  if c = 'd' then decompile core .DEBUG_XML
  else if c = '\x00' then decompile core .DEFAULT
  else if c = 'x' then decompile core .XML
  else if c = 'o' then decompile core .OFFSET
  else if c = '*' then decompile core .STATEMENTS
  else print_usage

/-- `r2ghidra_cmd(user, input)`: the return value and the events. -/
def r2ghidra_cmd (core : RCore) (input : Str) : Bool × List Event :=
  if input.take CMD_PREFIX.length = CMD_PREFIX then (true, _cmd core (input.drop 3))
  else (false, [])

/-! ## Sample data for the concrete checks -/

/-- An emitter configuration that differs from what an empty store yields. -/
def samplePrintC : PrintC :=
  { cppStyleComments := true, spaceAfterComma := false, newlineBeforeOpeningBrace := true,
    newlineBeforeElse := true, newlineAfterPrototype := true, indentIncrement := 2,
    lineCommentIndent := 20, maxLineSize := 100, xml := false }

/-- An engine that finds a function exactly at address `0x401000`, whose
transformation pipeline returns `res`, and that renders two lines. -/
def sampleEngine (res : Int) : Engine :=
  { init := .ok ()
    print := samplePrintC
    print_with_offsets := samplePrintC
    findFunction := fun addr => .ok (if addr = 4198400 then some ⟨addr, 0, []⟩ else none)
    perform := fun func => .ok (res, { func with state := 1 })
    getWarnings := []
    saveXmlFunc := fun _ => .ok "<f/>".toList
    docFunction := fun _ _ => .ok "x = 1;\nreturn;\n".toList
    docFunctionWithOffsets := fun _ _ =>
      .ok ⟨"x = 1;\nreturn;\n".toList, [[4198432], [4198440]],
        [(4198432, "x = 1;R2_OFFSET_START...R2_OFFSET_STOP\n".toList)]⟩
    saveXmlArch := .ok "<doc/>".toList }

def sampleCore (fcn_in : Option Nat) (res : Int) : RCore :=
  { config := { nodes := [], absent := 0 }, fcn_in := fcn_in, engine := sampleEngine res }

/-! ## Facts about the string primitives -/

theorem findFrom_first (pat : Str) :
    ∀ (s : Str) (i k : Nat), FirstAt pat s k → findFrom pat s i = i + k := by
  intro s
  induction s with
  | nil =>
    intro i k h
    obtain ⟨h0, hmin⟩ := h
    have hp : pat = [] := by simpa using h0
    have hk : k = 0 := by
      by_contra hne
      exact hmin 0 (Nat.pos_of_ne_zero hne) (by simp [hp])
    simp [findFrom, hp, hk]
  | cons c cs ih =>
    intro i k h
    obtain ⟨h0, hmin⟩ := h
    by_cases hpre : pat <+: c :: cs
    · have hk : k = 0 := by
        by_contra hne
        exact hmin 0 (Nat.pos_of_ne_zero hne) (by simpa using hpre)
      have hb : pat.isPrefixOf (c :: cs) = true := List.isPrefixOf_iff_prefix.mpr hpre
      simp [findFrom, hb, hk]
    · have hb : pat.isPrefixOf (c :: cs) = false := by
        cases hv : pat.isPrefixOf (c :: cs) with
        | false => rfl
        | true => exact absurd (List.isPrefixOf_iff_prefix.mp hv) hpre
      cases k with
      | zero => exact absurd (by simpa using h0) hpre
      | succ k' =>
        have hrec : FirstAt pat cs k' := by
          refine ⟨by simpa using h0, ?_⟩
          intro j hj hcontra
          exact hmin (j + 1) (by omega) (by simpa using hcontra)
        have := ih (i + 1) k' hrec
        simp [findFrom, hb, this]
        omega

theorem findFrom_absent (pat : Str) (hpat : pat ≠ []) :
    ∀ (s : Str) (i : Nat), ¬ pat <:+: s → findFrom pat s i = npos := by
  intro s
  induction s with
  | nil => intro i _; simp [findFrom, hpat]
  | cons c cs ih =>
    intro i h
    have hb : pat.isPrefixOf (c :: cs) = false := by
      cases hv : pat.isPrefixOf (c :: cs) with
      | false => rfl
      | true => exact absurd (List.isPrefixOf_iff_prefix.mp hv).isInfix h
    have hcs : ¬ pat <:+: cs := fun hc => h (hc.trans (List.suffix_cons c cs).isInfix)
    simp [findFrom, hb, ih (i + 1) hcs]

theorem findFrom_range (pat : Str) :
    ∀ (s : Str) (i : Nat), findFrom pat s i = npos ∨ findFrom pat s i ≤ i + s.length := by
  intro s
  induction s with
  | nil =>
    intro i
    by_cases hp : pat = [] <;> simp [findFrom, hp]
  | cons c cs ih =>
    intro i
    cases hv : pat.isPrefixOf (c :: cs) with
    | true => right; simp [findFrom, hv]
    | false =>
      rcases ih (i + 1) with h | h
      · left; simp [findFrom, hv, h]
      · right; simp [findFrom, hv]; omega

theorem find_range (s pat : Str) : find s pat = npos ∨ find s pat ≤ s.length := by
  have := findFrom_range pat s 0
  simpa [find] using this

theorem newline_not_mem_removeNewlines (s : Str) : '\n' ∉ removeNewlines s := by
  simp [removeNewlines, List.mem_filter]

theorem cleanStatement_isSome (raw : Str) : ∃ out, cleanStatement raw = some out := by
  unfold cleanStatement
  by_cases h : find raw R2_OFFSET_START = npos
  · simp [h]
  · have hle : find raw R2_OFFSET_START ≤ raw.length := by
      rcases find_range raw R2_OFFSET_START with h1 | h1
      · exact absurd h1 h
      · exact h1
    simp [h, erase, Nat.not_lt.mpr hle]

theorem length_START : R2_OFFSET_START.length = 15 := by decide

theorem find_of_firstAt (pat s : Str) (k : Nat) (h : FirstAt pat s k) : find s pat = k := by
  have := findFrom_first pat s 0 k h
  simpa [find] using this

theorem find_of_absent (pat s : Str) (hpat : pat ≠ []) (h : ¬ pat <:+: s) : find s pat = npos :=
  findFrom_absent pat hpat s 0 h

/-- Cleaning when the start marker is absent: only the newlines go. -/
theorem cleanStatement_of_no_start (raw : Str) (h : ¬ R2_OFFSET_START <:+: raw) :
    cleanStatement raw = some (removeNewlines raw) := by
  have hf := find_of_absent R2_OFFSET_START raw (by decide) h
  simp [cleanStatement, hf]

/-- The erase call when the start marker is first at `s` and the end position is 14. -/
theorem erase_of_no_stop (raw : Str) (s : Nat) (hocc : s + 15 ≤ raw.length)
    (hlen : raw.length < npos) :
    erase raw s ((14 + 2 ^ 64 - s) % 2 ^ 64)
      = some (raw.take s ++ (if 14 < s then [] else raw.drop 14)) := by
  have hnpos : npos = 18446744073709551615 := by norm_num [npos]
  have h264 : (2 : Nat) ^ 64 = 18446744073709551616 := by norm_num
  rw [hnpos] at hlen
  have hnot : ¬ raw.length < s := by omega
  simp only [erase, hnot, if_false]
  congr 2
  by_cases hs : 14 < s
  · have : s + min ((14 + 2 ^ 64 - s) % 2 ^ 64) (raw.length - s) = raw.length := by
      rw [h264]; omega
    rw [this, if_pos hs]; simp
  · have : s + min ((14 + 2 ^ 64 - s) % 2 ^ 64) (raw.length - s) = 14 := by
      rw [h264]; omega
    rw [this, if_neg hs]

/-- Cleaning when the start marker is present and the stop marker is not. -/
theorem cleanStatement_of_no_stop (raw : Str) (s : Nat)
    (hstart : FirstAt R2_OFFSET_START raw s) (hstop : ¬ R2_OFFSET_STOP <:+: raw)
    (hlen : raw.length < npos) :
    s + 15 ≤ raw.length ∧
    cleanStatement raw
      = some (removeNewlines (raw.take s ++ (if 14 < s then [] else raw.drop 14))) := by
  have h1 := find_of_firstAt _ _ _ hstart
  have h2 := find_of_absent R2_OFFSET_STOP raw (by decide) hstop
  have hocc : s + 15 ≤ raw.length := by
    have := hstart.1.length_le
    rw [length_START, List.length_drop] at this
    omega
  refine ⟨hocc, ?_⟩
  have hnpos : npos = 18446744073709551615 := by norm_num [npos]
  have hne : s ≠ npos := by rw [hnpos] at hlen ⊢; omega
  have hend : (npos + 15) % 2 ^ 64 = 14 := by norm_num [npos]
  unfold cleanStatement
  simp only [h1, h2, hne, ne_eq, not_false_eq_true, if_true, hend,
    erase_of_no_stop raw s hocc hlen, Option.map_some']

/-! ## Hexadecimal output -/

theorem isLowerHexDigit_hexDigit (d : Nat) (h : d < 16) : isLowerHexDigit (hexDigit d) = true := by
  interval_cases d <;> decide

theorem toHex_all_hex : ∀ (fuel n : Nat) (c : Char), c ∈ toHex fuel n → isLowerHexDigit c = true := by
  intro fuel
  induction fuel with
  | zero => intro n c h; simp [toHex] at h
  | succ fuel ih =>
    intro n c h
    unfold toHex at h
    split at h
    · rename_i hn
      simp at h
      rw [h]; exact isLowerHexDigit_hexDigit n hn
    · simp at h
      rcases h with h | h
      · exact ih _ c h
      · rw [h]; exact isLowerHexDigit_hexDigit _ (Nat.mod_lt _ (by norm_num))

theorem hex64_all_hex (v : Nat) (c : Char) (h : c ∈ hex64 v) : isLowerHexDigit c = true :=
  toHex_all_hex 16 _ c h

theorem newline_not_hex : isLowerHexDigit '\n' = false := by decide

theorem nul_not_hex : isLowerHexDigit '\x00' = false := by decide

theorem c_str_no_nul (s : Str) : '\x00' ∉ c_str s := by
  intro h
  have := List.mem_takeWhile_imp h
  simp at this

theorem c_str_of_no_nul (s : Str) (h : '\x00' ∉ s) : c_str s = s := by
  unfold c_str
  rw [List.takeWhile_eq_self_iff]
  intro c hc
  have : c ≠ '\x00' := fun e => h (e ▸ hc)
  simpa using this

theorem c_str_subset (s : Str) (c : Char) (h : c ∈ c_str s) : c ∈ s :=
  (List.takeWhile_sublist _).subset h

/-! ## Statement cleaning: the claims -/

/-- C3: for every raw statement text the cleaning succeeds, the cleaned text
has no newline character, and the record handed to the console is exactly two
lines: the seek directive and the comment directive, each closed by one newline. -/
theorem statement_comment_is_single_line (addr : Nat) (raw : Str) :
    ∃ cleaned, cleanStatement raw = some cleaned ∧ '\n' ∉ cleaned
      ∧ '\n' ∉ commentDirective cleaned
      ∧ '\n' ∉ "s 0x".toList ++ hex64 addr
      ∧ statementRecord addr raw
          = some ("s 0x".toList ++ hex64 addr ++ "\n".toList
              ++ commentDirective cleaned ++ "\n".toList) := by
  obtain ⟨erased, herased⟩ : ∃ e, (if find raw R2_OFFSET_START ≠ npos then
      erase raw (find raw R2_OFFSET_START)
        (((find raw R2_OFFSET_STOP + 15) % 2 ^ 64 + 2 ^ 64 - find raw R2_OFFSET_START) % 2 ^ 64)
      else some raw) = some e := by
    obtain ⟨out, hout⟩ := cleanStatement_isSome raw
    unfold cleanStatement at hout
    simp only [Option.map_eq_some'] at hout
    obtain ⟨e, he, _⟩ := hout
    exact ⟨e, he⟩
  have hclean : cleanStatement raw = some (removeNewlines erased) := by
    unfold cleanStatement
    simp only [herased, Option.map_some']
  have hnl : '\n' ∉ removeNewlines erased := newline_not_mem_removeNewlines erased
  have hdir : '\n' ∉ commentDirective (removeNewlines erased) := by
    intro h
    simp only [commentDirective, List.mem_append] at h
    rcases h with (h | h) | h
    · revert h; decide
    · exact hnl (c_str_subset _ _ h)
    · revert h; decide
  have hseek : '\n' ∉ "s 0x".toList ++ hex64 addr := by
    intro h
    simp only [List.mem_append] at h
    rcases h with h | h
    · revert h; decide
    · have := hex64_all_hex addr _ h
      rw [newline_not_hex] at this
      exact Bool.noConfusion this
  refine ⟨removeNewlines erased, hclean, hnl, hdir, hseek, ?_⟩
  unfold statementRecord
  rw [hclean, Option.map_some']
  congr 1
  have hnonul : '\x00' ∉ "s ".toList ++ "0x".toList ++ hex64 addr ++ "\n".toList
      ++ commentDirective (removeNewlines erased) ++ "\n".toList := by
    intro h
    simp only [commentDirective, List.mem_append] at h
    rcases h with ((((h | h) | h) | h) | ((h | h) | h)) | h
    · revert h; decide
    · revert h; decide
    · have := hex64_all_hex addr _ h
      rw [nul_not_hex] at this
      exact Bool.noConfusion this
    · revert h; decide
    · revert h; decide
    · exact c_str_no_nul _ h
    · revert h; decide
    · revert h; decide
  rw [c_str_of_no_nul _ hnonul]
  simp

/-- C9 (the code at the failing input): with text after the stop marker the
cleaning removes the marker span and the character that follows it. -/
theorem clean_takes_one_char_past_stop :
    FirstAt R2_OFFSET_START "aR2_OFFSET_STARTmR2_OFFSET_STOPbc".toList 1
      ∧ FirstAt R2_OFFSET_STOP "aR2_OFFSET_STARTmR2_OFFSET_STOPbc".toList 17
      ∧ cleanStatement ("a".toList ++ R2_OFFSET_START ++ "m".toList ++ R2_OFFSET_STOP ++ "bc".toList)
          = some "ac".toList
      ∧ removeNewlines ("a".toList ++ "bc".toList) = "abc".toList := by
  refine ⟨?_, ?_, ?_, ?_⟩
  · unfold FirstAt; decide
  · unfold FirstAt; decide
  · decide
  · decide

/-- C10: when the text has a start marker, first at index `s`, and no stop
marker, the erase position is within the text, the end position wraps to 14,
and the cleaned text is the text before `s`, followed by the text from index 14
on when `s ≤ 14`, with newlines removed. -/
theorem clean_without_stop_marker (raw : Str) (s : Nat)
    (hstart : FirstAt R2_OFFSET_START raw s) (hstop : ¬ R2_OFFSET_STOP <:+: raw)
    (hlen : raw.length < npos) :
    find raw R2_OFFSET_START = s ∧ s ≤ raw.length
      ∧ (find raw R2_OFFSET_STOP + 15) % 2 ^ 64 = 14
      ∧ erase raw s ((14 + 2 ^ 64 - s) % 2 ^ 64)
          = some (raw.take s ++ (if 14 < s then [] else raw.drop 14))
      ∧ cleanStatement raw
          = some (removeNewlines (raw.take s ++ (if 14 < s then [] else raw.drop 14))) := by
  have h1 := find_of_firstAt _ _ _ hstart
  have h2 := find_of_absent R2_OFFSET_STOP raw (by decide) hstop
  obtain ⟨hocc, hclean⟩ := cleanStatement_of_no_stop raw s hstart hstop hlen
  have hend : (find raw R2_OFFSET_STOP + 15) % 2 ^ 64 = 14 := by rw [h2]; norm_num [npos]
  exact ⟨h1, by omega, hend, erase_of_no_stop raw s hocc hlen, hclean⟩

theorem clean_without_stop_marker_witness :
    cleanStatement "0123456789abcdefgh\nR2_OFFSET_STARTxyz".toList
      = some "0123456789abcdefgh".toList
    ∧ cleanStatement "abR2_OFFSET_START\nxyz".toList = some "abARTxyz".toList :=
  ⟨(clean_without_stop_marker "0123456789abcdefgh\nR2_OFFSET_STARTxyz".toList 19
      (by unfold FirstAt; decide) (by decide) (by decide)).2.2.2.2.trans (by decide),
   (clean_without_stop_marker "abR2_OFFSET_START\nxyz".toList 2
      (by unfold FirstAt; decide) (by decide) (by decide)).2.2.2.2.trans (by decide)⟩

/-! ## Offset annotation: the loop -/

theorem getline_rest_length (stream line rest : Str) (h : getline stream = some (line, rest)) :
    rest.length < stream.length := by
  unfold getline at h
  split at h
  · simp at h
  · rename_i hne
    simp only [Option.some.injEq, Prod.mk.injEq] at h
    rw [← h.2]
    have h1 : (List.dropWhile (fun c => c != '\n') stream).length ≤ stream.length :=
      (List.dropWhile_suffix _).length_le
    have h2 : 0 < stream.length := List.length_pos.mpr hne
    simp only [List.length_drop]
    omega

theorem getline_no_newline (stream line rest : Str) (h : getline stream = some (line, rest)) :
    '\n' ∉ line := by
  unfold getline at h
  split at h
  · simp at h
  · simp only [Option.some.injEq, Prod.mk.injEq] at h
    rw [← h.1]
    intro hmem
    have := List.mem_takeWhile_imp hmem
    simp at this

theorem getlines_no_newline : ∀ (fuel : Nat) (stream line : Str),
    line ∈ getlines fuel stream → '\n' ∉ line := by
  intro fuel
  induction fuel with
  | zero => intro stream line h; simp [getlines] at h
  | succ fuel ih =>
    intro stream line h
    unfold getlines at h
    cases hg : getline stream with
    | none => rw [hg] at h; simp at h
    | some p =>
      obtain ⟨l, rest⟩ := p
      rw [hg] at h
      simp only [List.mem_cons] at h
      rcases h with h | h
      · rw [h]; exact getline_no_newline _ _ _ hg
      · exact ih rest line h

/-- More fuel than characters never changes the lines delivered. -/
theorem getlines_fuel : ∀ (fuel fuel' : Nat) (stream : Str),
    stream.length < fuel → stream.length < fuel' → getlines fuel stream = getlines fuel' stream := by
  intro fuel
  induction fuel with
  | zero => intro fuel' stream h; omega
  | succ fuel ih =>
    intro fuel' stream h h'
    cases fuel' with
    | zero => omega
    | succ fuel' =>
      unfold getlines
      cases hg : getline stream with
      | none => rfl
      | some p =>
        obtain ⟨l, rest⟩ := p
        have := getline_rest_length _ _ _ hg
        simp only
        rw [ih fuel' rest (by omega) (by omega)]

/-- The loop pairs the lines with the entries of the correspondence from `ln` on
and stops with the shorter of the two. -/
theorem offsetLoop_eq_zipWith : ∀ (fuel : Nat) (stream : Str) (offsets : List (List Nat)) (ln : Nat),
    offsetLoop fuel stream offsets ln
      = List.zipWith annotateLine (offsets.drop ln) (getlines fuel stream) := by
  intro fuel
  induction fuel with
  | zero => intro stream offsets ln; simp [offsetLoop, getlines]
  | succ fuel ih =>
    intro stream offsets ln
    unfold offsetLoop getlines
    cases hg : getline stream with
    | none => simp
    | some p =>
      obtain ⟨l, rest⟩ := p
      simp only
      by_cases hln : offsets.length ≤ ln
      · simp [hln, List.drop_eq_nil_of_le hln]
      · have hlt : ln < offsets.length := by omega
        rw [if_neg hln, ih, List.drop_eq_getElem_cons hlt, List.zipWith_cons_cons,
          List.getD_eq_getElem _ _ hlt]

theorem offsetChunks_eq_zipWith (text : Str) (offsets : List (List Nat)) :
    offsetChunks text offsets = List.zipWith annotateLine offsets (renderedLines text) := by
  simp [offsetChunks, renderedLines, offsetLoop_eq_zipWith]

/-! ## Offset annotation: the address field -/

theorem hexDigitValue_hexDigit (d : Nat) (h : d < 16) : hexDigitValue (hexDigit d) = d := by
  interval_cases d <;> decide

theorem hexValue_snoc (xs : Str) (c : Char) :
    hexValue (xs ++ [c]) = 16 * hexValue xs + hexDigitValue c := by
  simp [hexValue, List.foldl_append]

theorem hexValue_toHex : ∀ (fuel n : Nat), n < 16 ^ fuel → hexValue (toHex fuel n) = n := by
  intro fuel
  induction fuel with
  | zero => intro n h; simp at h; subst h; simp [toHex, hexValue]
  | succ fuel ih =>
    intro n h
    unfold toHex
    split
    · rename_i hn
      simp [hexValue, hexDigitValue_hexDigit n hn]
    · have hdiv : n / 16 < 16 ^ fuel := by
        rw [Nat.div_lt_iff_lt_mul (by norm_num)]
        rw [pow_succ] at h
        exact h
      rw [hexValue_snoc, ih _ hdiv, hexDigitValue_hexDigit _ (Nat.mod_lt _ (by norm_num))]
      omega

theorem toHex_length_le : ∀ (fuel n k : Nat), 0 < k → n < 16 ^ k → (toHex fuel n).length ≤ k := by
  intro fuel
  induction fuel with
  | zero => intro n k _ _; simp [toHex]
  | succ fuel ih =>
    intro n k hk h
    unfold toHex
    split
    · simpa using hk
    · rename_i hn
      cases k with
      | zero => omega
      | succ k =>
        cases k with
        | zero => simp at h; omega
        | succ k =>
          have hdiv : n / 16 < 16 ^ (k + 1) := by
            rw [Nat.div_lt_iff_lt_mul (by norm_num)]
            rw [pow_succ] at h
            exact h
          have := ih (n / 16) (k + 1) (by omega) hdiv
          simp only [List.length_append, List.length_singleton]
          omega

theorem hexValue_zeros (k : Nat) (d : Str) : hexValue (List.replicate k '0' ++ d) = hexValue d := by
  have hz : ∀ k : Nat, List.foldl (fun acc c => 16 * acc + hexDigitValue c) 0 (List.replicate k '0') = 0 := by
    intro k
    induction k with
    | zero => rfl
    | succ k ih =>
      rw [List.replicate_succ', List.foldl_append, ih]
      decide
  simp [hexValue, List.foldl_append, hz]

/-- The digits printed for an address: at least ten, all lowercase hexadecimal,
reading back as the 64-bit address, and exactly ten below `2 ^ 40`. -/
theorem setw10_hex64 (v : Nat) :
    10 ≤ (setw10 (hex64 v)).length
      ∧ (∀ c ∈ setw10 (hex64 v), isLowerHexDigit c = true)
      ∧ hexValue (setw10 (hex64 v)) = v % 2 ^ 64
      ∧ (v % 2 ^ 64 < 2 ^ 40 → (setw10 (hex64 v)).length = 10) := by
  refine ⟨?_, ?_, ?_, ?_⟩
  · simp only [setw10, List.length_append, List.length_replicate]; omega
  · intro c hc
    simp only [setw10, List.mem_append, List.mem_replicate] at hc
    rcases hc with ⟨_, rfl⟩ | hc
    · decide
    · exact hex64_all_hex v c hc
  · rw [setw10, hexValue_zeros, hex64]
    exact hexValue_toHex 16 _ (by
      have : (16 : Nat) ^ 16 = 2 ^ 64 := by norm_num
      rw [this]; exact Nat.mod_lt _ (by norm_num))
  · intro h
    have hle : (hex64 v).length ≤ 10 :=
      toHex_length_le 16 _ 10 (by norm_num) (by
        have : (16 : Nat) ^ 10 = 2 ^ 40 := by norm_num
        rw [this]; exact h)
    simp only [setw10, List.length_append, List.length_replicate]; omega

theorem hasBlankField_blank (line : Str) :
    hasBlankField ("                    |".toList ++ line ++ "\n".toList) = true := by
  simp [hasBlankField]

theorem hasAddressField_of_ten (digits rest : Str) (hlen : digits.length = 10)
    (hhex : ∀ c ∈ digits, isLowerHexDigit c = true) :
    hasAddressField ("    0x".toList ++ digits ++ "    |".toList ++ rest) = true := by
  have e1 : "    0x".toList ++ digits ++ "    |".toList ++ rest
      = "    0x".toList ++ (digits ++ ("    |".toList ++ rest)) := by simp
  have h6 : ("    0x".toList).length = 6 := by decide
  have t1 : List.take 6 ("    0x".toList ++ (digits ++ ("    |".toList ++ rest))) = "    0x".toList :=
    List.take_left' h6
  have d1 : List.drop 6 ("    0x".toList ++ (digits ++ ("    |".toList ++ rest)))
      = digits ++ ("    |".toList ++ rest) := List.drop_left' h6
  have t2 : List.take 10 (digits ++ ("    |".toList ++ rest)) = digits := List.take_left' hlen
  have e2 : "    0x".toList ++ (digits ++ ("    |".toList ++ rest))
      = ("    0x".toList ++ digits) ++ ("    |".toList ++ rest) := by simp
  have d2 : List.drop 16 (("    0x".toList ++ digits) ++ ("    |".toList ++ rest))
      = "    |".toList ++ rest := List.drop_left' (by simp [hlen])
  have t3 : List.take 5 ("    |".toList ++ rest) = "    |".toList := List.take_left' (by decide)
  unfold hasAddressField
  rw [e1, t1, d1, t2, e2, d2, t3]
  simp [hlen, List.all_eq_true]
  exact hhex

/-! ## Offset annotation: addresses of more than ten digits -/

/-- The digit count of `toHex` is exact: no leading zero, no digit missing. -/
theorem toHex_length_bounds : ∀ (fuel n : Nat), 0 < n → n < 16 ^ fuel →
    16 ^ ((toHex fuel n).length - 1) ≤ n ∧ n < 16 ^ (toHex fuel n).length := by
  intro fuel
  induction fuel with
  | zero => intro n h0 h; simp at h; omega
  | succ fuel ih =>
    intro n h0 h
    unfold toHex
    split
    · rename_i hn
      simp only [List.length_singleton, Nat.sub_self, pow_zero, pow_one]
      omega
    · rename_i hn
      have hdiv : n / 16 < 16 ^ fuel := by
        rw [Nat.div_lt_iff_lt_mul (by norm_num)]
        rw [pow_succ] at h
        exact h
      have hpos : 0 < n / 16 := Nat.div_pos (by omega) (by norm_num)
      obtain ⟨hlo, hhi⟩ := ih (n / 16) hpos hdiv
      have hlen : 0 < (toHex fuel (n / 16)).length := by
        by_contra hz
        have hz0 : (toHex fuel (n / 16)).length = 0 := by omega
        rw [hz0] at hhi
        simp at hhi
        omega
      simp only [List.length_append, List.length_singleton, Nat.add_sub_cancel]
      constructor
      · have e : 16 ^ (toHex fuel (n / 16)).length
            = 16 ^ ((toHex fuel (n / 16)).length - 1) * 16 := by
          rw [← pow_succ]; congr 1; omega
        rw [e]
        have := Nat.div_mul_le_self n 16
        nlinarith
      · rw [pow_succ]
        have := Nat.lt_succ_iff.mp (Nat.lt_succ_of_lt hhi)
        have h2 : n < (n / 16 + 1) * 16 := by
          have := Nat.div_add_mod n 16
          have := Nat.mod_lt n (show 0 < 16 by norm_num)
          omega
        nlinarith

/-- An address of `2 ^ 40` or more is printed without padding: eleven to sixteen
digits, the first of them not a padding zero. -/
theorem setw10_hex64_wide (v : Nat) (h : 2 ^ 40 ≤ v % 2 ^ 64) :
    setw10 (hex64 v) = hex64 v
      ∧ 11 ≤ (hex64 v).length ∧ (hex64 v).length ≤ 16
      ∧ 16 ^ ((hex64 v).length - 1) ≤ v % 2 ^ 64 := by
  have hlt : v % 2 ^ 64 < 16 ^ 16 := by
    have : (16 : Nat) ^ 16 = 2 ^ 64 := by norm_num
    rw [this]; exact Nat.mod_lt _ (by norm_num)
  have hpos : 0 < v % 2 ^ 64 := by
    have : 0 < 2 ^ 40 := by norm_num
    omega
  obtain ⟨hlo, hhi⟩ := toHex_length_bounds 16 (v % 2 ^ 64) hpos hlt
  have h11 : 11 ≤ (toHex 16 (v % 2 ^ 64)).length := by
    by_contra hc
    have hle : (toHex 16 (v % 2 ^ 64)).length ≤ 10 := by omega
    have : 16 ^ (toHex 16 (v % 2 ^ 64)).length ≤ 16 ^ 10 :=
      Nat.pow_le_pow_right (by norm_num) hle
    have e : (16 : Nat) ^ 10 = 2 ^ 40 := by norm_num
    omega
  have h16 : (toHex 16 (v % 2 ^ 64)).length ≤ 16 := by
    by_contra hc
    have hge : 16 ≤ (toHex 16 (v % 2 ^ 64)).length - 1 := by omega
    have : 16 ^ 16 ≤ 16 ^ ((toHex 16 (v % 2 ^ 64)).length - 1) :=
      Nat.pow_le_pow_right (by norm_num) hge
    omega
  refine ⟨?_, h11, h16, hlo⟩
  have hz : 10 - (hex64 v).length = 0 := by
    have : 11 ≤ (hex64 v).length := h11
    omega
  simp [setw10, hz]

theorem hasAddressField_of_wide (digits rest : Str) (hlen : 11 ≤ digits.length)
    (hhex : ∀ c ∈ digits, isLowerHexDigit c = true) :
    hasAddressField ("    0x".toList ++ digits ++ rest) = false := by
  have hsplit : digits = digits.take 10 ++ digits.drop 10 := (List.take_append_drop 10 digits).symm
  have htl : (digits.take 10).length = 10 := by simp; omega
  cases hd : digits.drop 10 with
  | nil =>
    have := congrArg List.length hd
    simp at this
    omega
  | cons c tail =>
    have hc : isLowerHexDigit c = true :=
      hhex c ((List.drop_sublist 10 digits).subset (by rw [hd]; simp))
    have hne : c ≠ ' ' := by
      intro e
      rw [e] at hc
      revert hc
      decide
    have e1 : "    0x".toList ++ digits ++ rest
        = ("    0x".toList ++ digits.take 10) ++ (c :: (tail ++ rest)) := by
      conv_lhs => rw [hsplit, hd]
      simp
    have d16 : List.drop 16 (("    0x".toList ++ digits.take 10) ++ (c :: (tail ++ rest)))
        = c :: (tail ++ rest) := List.drop_left' (by simp [htl])
    unfold hasAddressField
    rw [e1, d16]
    have : (List.take 5 (c :: (tail ++ rest)) == "    |".toList) = false := by
      cases h5 : (List.take 5 (c :: (tail ++ rest)) == "    |".toList) with
      | false => rfl
      | true =>
        exfalso
        simp only [beq_iff_eq] at h5
        have := congrArg List.head? h5
        simp at this
        exact hne this
    rw [this]
    simp

/-! ## Offset annotation: the claims -/

theorem hasAddressField_blank (rest : Str) :
    hasAddressField ("                    |".toList ++ rest) = false := by
  have h6 : List.take 6 ("                    |".toList ++ rest) = "      ".toList := by
    have : "                    |".toList ++ rest
        = "      ".toList ++ ("              |".toList ++ rest) := by simp
    rw [this]; exact List.take_left' (by decide)
  unfold hasAddressField
  rw [h6]
  simp

theorem hasBlankField_address (rest : Str) :
    hasBlankField ("    0x".toList ++ rest) = false := by
  cases hb : hasBlankField ("    0x".toList ++ rest) with
  | false => rfl
  | true =>
    exfalso
    simp only [hasBlankField, beq_iff_eq] at hb
    have h1 := congrArg (List.take 6) hb
    rw [List.take_take] at h1
    have h2 : List.take 6 ("    0x".toList ++ rest) = "    0x".toList :=
      List.take_left' (by decide)
    simp only [Nat.min_def] at h1
    norm_num at h1
    exact absurd h1.1 (by decide)

/-- C1 (amended): every piece written to the output belongs to one line of the
rendered text and its entry of the correspondence.  With an empty entry it is
twenty spaces, a bar, the line and a newline.  Otherwise it is four spaces,
`0x`, the first address of the entry in lowercase hexadecimal padded with
zeros to at least ten digits, four spaces, a bar, the line and a newline.  The
digits read back as the 64-bit address.  Below `2 ^ 40` they are exactly ten and
the field has the width of the blank one; from `2 ^ 40` on they are the eleven
to sixteen digits of the address without any padding, and the field is wider. -/
theorem offset_line_fields (text : Str) (offsets : List (List Nat)) (i : Nat) (chunk : Str)
    (h : (offsetChunks text offsets)[i]? = some chunk) :
    ∃ line addrs, (renderedLines text)[i]? = some line ∧ offsets[i]? = some addrs ∧ '\n' ∉ line
      ∧ ((addrs = [] ∧ chunk = "                    |".toList ++ line ++ "\n".toList
            ∧ hasBlankField chunk = true ∧ hasAddressField chunk = false)
        ∨ (∃ front digits, addrs.head? = some front
            ∧ chunk = "    0x".toList ++ digits ++ "    |".toList ++ line ++ "\n".toList
            ∧ 10 ≤ digits.length ∧ (∀ c ∈ digits, isLowerHexDigit c = true)
            ∧ hexValue digits = front % 2 ^ 64
            ∧ hasBlankField chunk = false
            ∧ (front % 2 ^ 64 < 2 ^ 40 → digits.length = 10 ∧ hasAddressField chunk = true)
            ∧ (2 ^ 40 ≤ front % 2 ^ 64 → 11 ≤ digits.length ∧ digits.length ≤ 16
                ∧ 16 ^ (digits.length - 1) ≤ front % 2 ^ 64
                ∧ hasAddressField chunk = false))) := by
  rw [offsetChunks_eq_zipWith, List.getElem?_zipWith_eq_some] at h
  obtain ⟨addrs, line, haddrs, hline, hchunk⟩ := h
  have hnl : '\n' ∉ line :=
    getlines_no_newline _ _ _ (List.mem_iff_getElem?.mpr ⟨i, hline⟩)
  refine ⟨line, addrs, hline, haddrs, hnl, ?_⟩
  cases addrs with
  | nil =>
    left
    have hc : chunk = "                    |".toList ++ line ++ "\n".toList := by
      rw [← hchunk]; rfl
    refine ⟨rfl, hc, ?_, ?_⟩
    · rw [hc]; exact hasBlankField_blank line
    · rw [hc, List.append_assoc]; exact hasAddressField_blank _
  | cons front tail =>
    right
    obtain ⟨h10, hhex, hval, hten⟩ := setw10_hex64 front
    have hc : chunk = "    0x".toList ++ setw10 (hex64 front) ++ "    |".toList ++ line
        ++ "\n".toList := by
      rw [← hchunk]; simp [annotateLine]
    refine ⟨front, setw10 (hex64 front), rfl, hc, h10, hhex, hval, ?_, ?_, ?_⟩
    · rw [hc]; simp only [List.append_assoc]; exact hasBlankField_address _
    · intro hlt
      refine ⟨hten hlt, ?_⟩
      rw [hc, List.append_assoc]
      exact hasAddressField_of_ten _ _ (hten hlt) hhex
    · intro hge
      obtain ⟨hsame, h11, h16, hlo⟩ := setw10_hex64_wide front hge
      rw [hsame] at hc hhex ⊢
      refine ⟨h11, h16, hlo, ?_⟩
      rw [hc, List.append_assoc, List.append_assoc]
      exact hasAddressField_of_wide _ _ h11 hhex

theorem offset_line_fields_witness :
    ((offsetChunks "x = 1;\nreturn;\n".toList [[4198432, 4198440], []])[0]?
        = some "    0x0000401020    |x = 1;\n".toList
      ∧ hasAddressField "    0x0000401020    |x = 1;\n".toList = true
      ∧ hasBlankField "    0x0000401020    |x = 1;\n".toList = false)
    ∧ ((offsetChunks "a\n".toList [[1099511627776]])[0]?
        = some "    0x10000000000    |a\n".toList
      ∧ hasAddressField "    0x10000000000    |a\n".toList = false) := by
  constructor
  · obtain ⟨line, addrs, _, haddrs, _, h⟩ :=
      offset_line_fields "x = 1;\nreturn;\n".toList [[4198432, 4198440], []] 0
        "    0x0000401020    |x = 1;\n".toList (by decide)
    have ha : addrs = [4198432, 4198440] := by simpa using haddrs.symm
    subst ha
    rcases h with ⟨hnil, _⟩ | ⟨front, digits, hfront, _, _, _, _, hblank, hten, _⟩
    · simp at hnil
    · have hf : front = 4198432 := by simpa using hfront.symm
      subst hf
      exact ⟨by decide, (hten (by decide)).2, hblank⟩
  · obtain ⟨line, addrs, _, haddrs, _, h⟩ :=
      offset_line_fields "a\n".toList [[1099511627776]] 0
        "    0x10000000000    |a\n".toList (by decide)
    have ha : addrs = [1099511627776] := by simpa using haddrs.symm
    subst ha
    rcases h with ⟨hnil, _⟩ | ⟨front, digits, hfront, _, _, _, _, _, _, hwide⟩
    · simp at hnil
    · have hf : front = 1099511627776 := by simpa using hfront.symm
      subst hf
      exact ⟨by decide, (hwide (by decide)).2.2.2⟩

/-- C1 (counterexample): an address of `2 ^ 40` is printed with eleven digits,
so the line starts with neither of the two fields. -/
theorem address_field_wider_from_2_pow_40 :
    offsetChunks "a\n".toList [[1099511627776]] = ["    0x10000000000    |a\n".toList]
      ∧ hasAddressField "    0x10000000000    |a\n".toList = false
      ∧ hasBlankField "    0x10000000000    |a\n".toList = false := by
  refine ⟨by decide, by decide, by decide⟩

/-- C8 (counterexample): two rendered lines and a correspondence of one entry
give one output line; the second rendered line is not printed. -/
theorem lines_beyond_correspondence_dropped :
    renderedLines "a\nb\n".toList = ["a".toList, "b".toList]
      ∧ offsetChunks "a\nb\n".toList [[1]] = ["    0x0000000001    |a\n".toList]
      ∧ offsetPayload "a\nb\n".toList [[1]] = "    0x0000000001    |a\n".toList := by
  refine ⟨by decide, by decide, by decide⟩

theorem getline_subset (stream line rest : Str) (h : getline stream = some (line, rest)) :
    (∀ c ∈ line, c ∈ stream) ∧ (∀ c ∈ rest, c ∈ stream) := by
  unfold getline at h
  split at h
  · simp at h
  · simp only [Option.some.injEq, Prod.mk.injEq] at h
    constructor
    · intro c hc
      rw [← h.1] at hc
      exact (List.takeWhile_sublist _).subset hc
    · intro c hc
      rw [← h.2] at hc
      exact (List.dropWhile_sublist _).subset ((List.drop_sublist 1 _).subset hc)

theorem getlines_subset : ∀ (fuel : Nat) (stream line : Str),
    line ∈ getlines fuel stream → ∀ c ∈ line, c ∈ stream := by
  intro fuel
  induction fuel with
  | zero => intro stream line h; simp [getlines] at h
  | succ fuel ih =>
    intro stream line h c hc
    unfold getlines at h
    cases hg : getline stream with
    | none => rw [hg] at h; simp at h
    | some p =>
      obtain ⟨l, rest⟩ := p
      rw [hg] at h
      simp only [List.mem_cons] at h
      obtain ⟨h1, h2⟩ := getline_subset _ _ _ hg
      rcases h with h | h
      · rw [h] at hc; exact h1 c hc
      · exact h2 c (ih rest line h c hc)

/-- A character that is neither a digit, a space, `x` nor a bar is in an
annotated line only if it is in the line or is the final newline. -/
theorem mem_annotateLine (addrs : List Nat) (line : Str) (c : Char)
    (hhex : isLowerHexDigit c = false) (hsp : c ≠ ' ') (hx : c ≠ 'x') (hbar : c ≠ '|')
    (h : c ∈ annotateLine addrs line) : c ∈ line ∨ c = '\n' := by
  cases addrs with
  | nil =>
    simp only [annotateLine, List.mem_append] at h
    rcases h with (h | h) | h
    · exfalso
      have : c = ' ' ∨ c = '|' := by
        revert h
        simp
      rcases this with e | e
      · exact hsp e
      · exact hbar e
    · exact Or.inl h
    · right; simpa using h
  | cons front tail =>
    simp only [annotateLine, List.mem_append] at h
    rcases h with (((h | (h | h)) | h) | h) | h
    · exfalso
      have : c = ' ' := by
        revert h
        simp
      exact hsp this
    · exfalso
      have : c = '0' ∨ c = 'x' := by
        revert h
        simp
      rcases this with e | e
      · rw [e] at hhex; revert hhex; decide
      · exact hx e
    · exfalso
      have := (setw10_hex64 front).2.1 c h
      rw [hhex] at this
      exact Bool.noConfusion this
    · exfalso
      have : c = ' ' ∨ c = '|' := by
        revert h
        simp
      rcases this with e | e
      · exact hsp e
      · exact hbar e
    · exact Or.inl h
    · right; simpa using h

theorem annotateLine_no_nul (addrs : List Nat) (line : Str) (h : '\x00' ∉ line) :
    '\x00' ∉ annotateLine addrs line := by
  intro hmem
  rcases mem_annotateLine addrs line '\x00' (by decide) (by decide) (by decide) (by decide) hmem
    with h1 | h1
  · exact h h1
  · revert h1; decide

theorem count_newline_annotateLine (addrs : List Nat) (line : Str) (h : '\n' ∉ line) :
    (annotateLine addrs line).count '\n' = 1 := by
  have hline : line.count '\n' = 0 := List.count_eq_zero.mpr h
  cases addrs with
  | nil =>
    simp only [annotateLine, List.count_append, hline]
    decide
  | cons front tail =>
    have hd : (setw10 (hex64 front)).count '\n' = 0 := by
      apply List.count_eq_zero.mpr
      intro hm
      have := (setw10_hex64 front).2.1 _ hm
      rw [newline_not_hex] at this
      exact Bool.noConfusion this
    simp only [annotateLine, List.count_append, hline, hd]
    decide

theorem count_newline_flatten : ∀ (chunks : List Str),
    (∀ chunk ∈ chunks, chunk.count '\n' = 1) → chunks.flatten.count '\n' = chunks.length := by
  intro chunks
  induction chunks with
  | nil => intro _; rfl
  | cons chunk chunks ih =>
    intro h
    rw [List.flatten_cons, List.count_append, h chunk (by simp),
      ih (fun c hc => h c (List.mem_cons_of_mem _ hc))]
    simp
    omega

theorem offsetChunks_mem (text : Str) (offsets : List (List Nat)) (chunk : Str)
    (h : chunk ∈ offsetChunks text offsets) :
    ∃ addrs line, line ∈ renderedLines text ∧ chunk = annotateLine addrs line := by
  rw [offsetChunks_eq_zipWith] at h
  obtain ⟨i, hi⟩ := List.mem_iff_getElem?.mp h
  rw [List.getElem?_zipWith_eq_some] at hi
  obtain ⟨addrs, line, _, hline, hchunk⟩ := hi
  exact ⟨addrs, line, List.mem_iff_getElem?.mpr ⟨i, hline⟩, hchunk.symm⟩

/-- C8 (amended): the text written pairs the rendered lines with the entries of
the correspondence in order and stops with the shorter of the two; the loop
ends by itself.  What is printed is that text as a C string, so it depends only
on the rendered lines within the correspondence: the rendered lines beyond it
are not printed.  When the rendered text holds no NUL character the printed
output is the whole text written and has as many lines as the smaller of the
two counts. -/
theorem offset_output_stops_at_shorter (text : Str) (offsets : List (List Nat)) :
    offsetChunks text offsets = List.zipWith annotateLine offsets (renderedLines text)
      ∧ (offsetChunks text offsets).length = min (renderedLines text).length offsets.length
      ∧ (∀ extra : Nat, offsetLoop (text.length + 1 + extra) text offsets 0
          = offsetChunks text offsets)
      ∧ offsetPayload text offsets
          = c_str (List.zipWith annotateLine offsets
              ((renderedLines text).take offsets.length)).flatten
      ∧ ('\x00' ∉ text →
          offsetPayload text offsets = (offsetChunks text offsets).flatten
            ∧ (offsetPayload text offsets).count '\n'
                = min (renderedLines text).length offsets.length) := by
  have hlen : (offsetChunks text offsets).length
      = min (renderedLines text).length offsets.length := by
    rw [offsetChunks_eq_zipWith, List.length_zipWith, Nat.min_comm]
  refine ⟨offsetChunks_eq_zipWith text offsets, hlen, ?_, ?_, ?_⟩
  · intro extra
    rw [offsetChunks, offsetLoop_eq_zipWith, offsetLoop_eq_zipWith,
      getlines_fuel (text.length + 1 + extra) (text.length + 1) text (by omega) (by omega)]
  · rw [offsetPayload, offsetChunks_eq_zipWith]
    congr 2
    rw [List.zipWith_eq_zipWith_take_min offsets (renderedLines text)]
    have h1 : List.take (min offsets.length (renderedLines text).length) offsets
        = List.take (min offsets.length (renderedLines text).length)
            (List.take offsets.length offsets) := by simp
    have h2 : List.take (min offsets.length (renderedLines text).length) (renderedLines text)
        = List.take (min offsets.length (renderedLines text).length)
            (List.take offsets.length (renderedLines text)) := by
      rw [List.take_take]; congr 1; omega
    rw [List.zipWith_eq_zipWith_take_min offsets ((renderedLines text).take offsets.length)]
    simp only [List.length_take]
    rw [h2]
    congr 1
    · congr 1; omega
    · congr 1; omega
  · intro hnul
    have hflat : offsetPayload text offsets = (offsetChunks text offsets).flatten := by
      rw [offsetPayload]
      apply c_str_of_no_nul
      intro hmem
      rw [List.mem_flatten] at hmem
      obtain ⟨chunk, hchunk, hc⟩ := hmem
      obtain ⟨addrs, line, hline, rfl⟩ := offsetChunks_mem text offsets chunk hchunk
      exact annotateLine_no_nul addrs line
        (fun hl => hnul (getlines_subset _ _ _ hline _ hl)) hc
    refine ⟨hflat, ?_⟩
    rw [hflat, count_newline_flatten, hlen]
    intro chunk hchunk
    obtain ⟨addrs, line, hline, rfl⟩ := offsetChunks_mem text offsets chunk hchunk
    exact count_newline_annotateLine addrs line (getlines_no_newline _ _ _ hline)

theorem offset_output_stops_at_shorter_witness :
    offsetPayload "a\nb\n".toList [[1]] = "    0x0000000001    |a\n".toList
      ∧ (offsetPayload "a\nb\n".toList [[1]]).count '\n' = 1
      ∧ (renderedLines "a\nb\n".toList).length = 2 :=
  ⟨((offset_output_stops_at_shorter "a\nb\n".toList [[1]]).2.2.2.2 (by decide)).1.trans
      (by decide),
   ((offset_output_stops_at_shorter "a\nb\n".toList [[1]]).2.2.2.2 (by decide)).2.trans
      (by decide),
   by decide⟩

/-- A NUL character in a rendered line within the correspondence ends the
printed output there. -/
theorem offset_payload_cut_at_nul :
    offsetPayload "a\x00b\nc\n".toList [[1], [2]] = "    0x0000000001    |a".toList := by
  decide

/-! ## Render configuration adapter: the claims -/

/-- C6 (counterexample): with an empty option mapping the comment style and the
line width of the emitter do not keep their prior values. -/
theorem absent_options_overwrite_fields :
    List.lookup cfg_var_cmt_cpp.name ([] : List (Str × Nat)) = none
      ∧ List.lookup cfg_var_linelen.name ([] : List (Str × Nat)) = none
      ∧ samplePrintC.cppStyleComments = true ∧ samplePrintC.maxLineSize = 100
      ∧ (ApplyPrintCConfig { nodes := [], absent := 0 } (some samplePrintC)).map
          (fun p => (p.cppStyleComments, p.maxLineSize)) = some (false, 0)
      ∧ (ApplyPrintCConfig { nodes := [], absent := 1 }
          (some { samplePrintC with cppStyleComments := false })).map
          (fun p => (p.cppStyleComments, p.maxLineSize)) = some (true, 1) := by
  refine ⟨by decide, by decide, by decide, by decide, by decide, by decide⟩

/-- C6 (amended): on every call with an emitter all eight style fields are
overwritten, whatever they held before: six with what the configuration store
returns for the six options, space-after-comma with true and
newline-after-prototype with false.  Nothing else of the emitter changes, and
a null emitter is left alone. -/
theorem ApplyPrintCConfig_overwrites (cfg : RConfig) (p : PrintC) :
    ApplyPrintCConfig cfg (some p)
      = some { cppStyleComments := cfg_var_cmt_cpp.GetBool cfg
               spaceAfterComma := true
               newlineBeforeOpeningBrace := cfg_var_nl_brace.GetBool cfg
               newlineBeforeElse := cfg_var_nl_else.GetBool cfg
               newlineAfterPrototype := false
               indentIncrement := toInt4 (cfg_var_indent.GetInt cfg)
               lineCommentIndent := toInt4 (cfg_var_cmt_indent.GetInt cfg)
               maxLineSize := toInt4 (cfg_var_linelen.GetInt cfg)
               xml := p.xml }
      ∧ ApplyPrintCConfig cfg none = none := by
  refine ⟨?_, rfl⟩
  unfold ApplyPrintCConfig
  cases h : cfg_var_cmt_cpp.GetBool cfg <;> simp

/-! ## Command dispatch: the claims -/

theorem take_eq_iff_isPrefix (input : Str) :
    input.take CMD_PREFIX.length = CMD_PREFIX ↔ CMD_PREFIX <+: input := by
  constructor
  · intro h
    have h3 : input.take 3 = CMD_PREFIX := h
    have := List.take_append_drop 3 input
    rw [h3] at this
    exact ⟨input.drop 3, this⟩
  · rintro ⟨rest, rfl⟩
    exact List.take_left' rfl

/-- C7: a command that does not begin with `pdg` is not handled and causes
nothing.  A command `pdg ++ rest` is handled, and the first character of `rest`
alone selects what is done: none gives the default render, `x` XML, `d` debug
XML, `o` the offset render, `*` the statement list, and any other character
(a C string holds no NUL) only the usage text. -/
theorem command_dispatch (core : RCore) (input : Str) :
    (¬ CMD_PREFIX <+: input → r2ghidra_cmd core input = (false, []))
      ∧ (∀ rest, input = CMD_PREFIX ++ rest →
          (r2ghidra_cmd core input).1 = true
          ∧ (rest = [] → (r2ghidra_cmd core input).2 = decompile core .DEFAULT)
          ∧ (∀ tail, rest = 'x' :: tail → (r2ghidra_cmd core input).2 = decompile core .XML)
          ∧ (∀ tail, rest = 'd' :: tail → (r2ghidra_cmd core input).2 = decompile core .DEBUG_XML)
          ∧ (∀ tail, rest = 'o' :: tail → (r2ghidra_cmd core input).2 = decompile core .OFFSET)
          ∧ (∀ tail, rest = '*' :: tail → (r2ghidra_cmd core input).2 = decompile core .STATEMENTS)
          ∧ (∀ c tail, rest = c :: tail → c ∉ ['x', 'd', 'o', '*', '\x00'] →
              (r2ghidra_cmd core input).2 = [Event.r_cons_cmd_help usageHelp])) := by
  constructor
  · intro h
    have : ¬ input.take CMD_PREFIX.length = CMD_PREFIX := fun e => h ((take_eq_iff_isPrefix input).mp e)
    simp [r2ghidra_cmd, this]
  · intro rest hrest
    have htake : input.take CMD_PREFIX.length = CMD_PREFIX :=
      (take_eq_iff_isPrefix input).mpr ⟨rest, hrest.symm⟩
    have hdrop : input.drop 3 = rest := by rw [hrest]; exact List.drop_left' rfl
    have hcmd : r2ghidra_cmd core input = (true, _cmd core rest) := by
      simp [r2ghidra_cmd, htake, hdrop]
    rw [hcmd]
    refine ⟨rfl, ?_, ?_, ?_, ?_, ?_, ?_⟩
    · rintro rfl; simp [_cmd]
    · rintro tail rfl; simp [_cmd]
    · rintro tail rfl; simp [_cmd]
    · rintro tail rfl; simp [_cmd]
    · rintro tail rfl; simp [_cmd]
    · rintro c tail rfl hc
      simp only [List.mem_cons, List.mem_singleton, not_or, List.not_mem_nil, or_false] at hc
      obtain ⟨h1, h2, h3, h4, h5⟩ := hc
      simp [_cmd, h1, h2, h3, h4, h5, print_usage]

theorem command_dispatch_witness :
    (r2ghidra_cmd (sampleCore (some 4198400) 1) "pdgo".toList).1 = true
      ∧ (r2ghidra_cmd (sampleCore (some 4198400) 1) "pdgo".toList).2
          = decompile (sampleCore (some 4198400) 1) .OFFSET
      ∧ r2ghidra_cmd (sampleCore (some 4198400) 1) "pdf".toList = (false, [])
      ∧ (r2ghidra_cmd (sampleCore (some 4198400) 1) "pdg?".toList).2
          = [Event.r_cons_cmd_help usageHelp] :=
  ⟨((command_dispatch (sampleCore (some 4198400) 1) "pdgo".toList).2 "o".toList rfl).1,
   ((command_dispatch (sampleCore (some 4198400) 1) "pdgo".toList).2 "o".toList
      rfl).2.2.2.2.1 [] rfl,
   (command_dispatch (sampleCore (some 4198400) 1) "pdf".toList).1 (by decide),
   ((command_dispatch (sampleCore (some 4198400) 1) "pdg?".toList).2 "?".toList
      rfl).2.2.2.2.2.2 '?' [] rfl (by decide)⟩

/-! ## Decompilation driver: the claims -/

theorem diagnostics_append (s t : List Event) : diagnostics (s ++ t) = diagnostics s ++ diagnostics t := by
  simp [diagnostics, List.filterMap_append]

theorem payloads_append (s t : List Event) : payloads (s ++ t) = payloads s ++ payloads t := by
  simp [payloads, List.filterMap_append]

theorem engineCalls_append (s t : List Event) :
    engineCalls (s ++ t) = engineCalls s ++ engineCalls t := by
  simp [engineCalls, List.filterMap_append]

/-- C5: when no analyzed function covers the address, the only event of the
invocation is the diagnostic `No function`.  When the engine is set up and its
scope lookup finds nothing, there is exactly one diagnostic, no payload, and
the engine is not called after the lookup. -/
theorem no_function_diagnostics (core : RCore) (mode : DecompileMode) :
    (core.fcn_in = none → decompile core mode = [Event.eprintf "No function\n".toList])
      ∧ (∀ function, core.fcn_in = some function → core.engine.init = .ok () →
          core.engine.findFunction function = .ok none →
          diagnostics (decompile core mode) = ["No function in Scope\n".toList]
            ∧ payloads (decompile core mode) = []
            ∧ engineCalls (decompile core mode)
                = [.init, .configure, .configure, .findFunction]) := by
  constructor
  · intro h
    simp [decompile, h]
  · intro function hf hinit hfind
    have : decompile core mode
        = [.engine .init, .engine .configure, .engine .configure, .engine .findFunction,
            .eprintf "No function in Scope\n".toList] := by
      simp [decompile, decompileTry, hf, hinit, hfind]
    rw [this]
    refine ⟨by simp [diagnostics], by simp [payloads], by simp [engineCalls]⟩

theorem no_function_diagnostics_witness :
    decompile (sampleCore none 1) .OFFSET = [Event.eprintf "No function\n".toList]
      ∧ diagnostics (decompile (sampleCore (some 4096) 1) .XML) = ["No function in Scope\n".toList]
      ∧ payloads (decompile (sampleCore (some 4096) 1) .XML) = [] :=
  ⟨(no_function_diagnostics (sampleCore none 1) .OFFSET).1 rfl,
   ((no_function_diagnostics (sampleCore (some 4096) 1) .XML).2 4096 rfl rfl rfl).1,
   ((no_function_diagnostics (sampleCore (some 4096) 1) .XML).2 4096 rfl rfl rfl).2.1⟩

/-- C4 (counterexample): with a status of `-1` the default render still sends
the rendered text to the console, after the diagnostic `break`. -/
theorem negative_status_still_prints :
    decompile (sampleCore (some 4198400) (-1)) .DEFAULT
      = [.engine .init, .engine .configure, .engine .configure, .engine .findFunction,
          .engine .perform, .eprintf "break\n".toList, .engine .docFunction,
          .r_cons_print "x = 1;\nreturn;\n".toList]
      ∧ payloads (decompile (sampleCore (some 4198400) (-1)) .OFFSET)
          = ["    0x0000401020    |x = 1;\n    0x0000401028    |return;\n".toList] := by
  refine ⟨by decide, by decide⟩

/-- The events of an invocation that gets as far as the transformation pipeline. -/
theorem decompile_of_perform (core : RCore) (mode : DecompileMode)
    (function : Nat) (func func' : Funcdata) (res : Int)
    (hfcn : core.fcn_in = some function) (hinit : core.engine.init = .ok ())
    (hfind : core.engine.findFunction function = .ok (some func))
    (hperform : core.engine.perform func = .ok (res, func')) :
    decompile core mode
      = [.engine .init, .engine .configure, .engine .configure, .engine .findFunction,
          .engine .perform]
        ++ (if res < 0 then [.eprintf "break\n".toList] else [])
        ++ core.engine.getWarnings.map (fun _ => Event.engine .warningHeader)
        ++ (renderAndPrint core.engine mode
              ((ApplyPrintCConfig core.config (some core.engine.print)).getD core.engine.print)
              ((ApplyPrintCConfig core.config (some core.engine.print_with_offsets)).getD
                core.engine.print_with_offsets)
              (core.engine.getWarnings.foldl
                (fun f warning => f.warningHeader ("[r2ghidra] ".toList ++ warning)) func')).1
        ++ (match (renderAndPrint core.engine mode
              ((ApplyPrintCConfig core.config (some core.engine.print)).getD core.engine.print)
              ((ApplyPrintCConfig core.config (some core.engine.print_with_offsets)).getD
                core.engine.print_with_offsets)
              (core.engine.getWarnings.foldl
                (fun f warning => f.warningHeader ("[r2ghidra] ".toList ++ warning)) func')).2 with
            | .lowlevel explain =>
              [.eprintf ("Ghidra Decompiler Error: ".toList ++ c_str explain ++ "\n".toList)]
            | _ => []) := by
  simp only [decompile, decompileTry, hfcn, hinit, hfind, hperform]
  generalize renderAndPrint core.engine mode _ _ _ = r
  obtain ⟨t, o⟩ := r
  cases o <;> simp

/-- C4 (amended): a negative status of the transformation pipeline adds the
single diagnostic `break` and changes nothing else: in every mode the payloads,
the engine calls and the other diagnostics are those of the same invocation
with a non-negative status. -/
theorem negative_status_only_adds_break (core : RCore) (mode : DecompileMode)
    (function : Nat) (func func' : Funcdata) (res res' : Int)
    (hfcn : core.fcn_in = some function) (hinit : core.engine.init = .ok ())
    (hfind : core.engine.findFunction function = .ok (some func))
    (hperform : core.engine.perform func = .ok (res, func'))
    (hneg : res < 0) (hres' : 0 ≤ res') :
    payloads (decompile core mode)
        = payloads (decompile
            { core with engine := { core.engine with perform := fun _ => .ok (res', func') } } mode)
      ∧ engineCalls (decompile core mode)
        = engineCalls (decompile
            { core with engine := { core.engine with perform := fun _ => .ok (res', func') } } mode)
      ∧ diagnostics (decompile core mode)
        = "break\n".toList :: diagnostics (decompile
            { core with engine := { core.engine with perform := fun _ => .ok (res', func') } } mode) := by
  have hnot : ¬ res' < 0 := by omega
  have hrender : ∀ (p q : PrintC) (f : Funcdata),
      renderAndPrint { core.engine with perform := fun _ => .ok (res', func') } mode p q f
        = renderAndPrint core.engine mode p q f := by
    intro p q f
    cases mode <;> rfl
  rw [decompile_of_perform core mode function func func' res hfcn hinit hfind hperform,
    decompile_of_perform
      { core with engine := { core.engine with perform := fun _ => .ok (res', func') } }
      mode function func func' res' hfcn hinit hfind rfl]
  simp only [hrender, hneg, hnot, if_true, if_false, payloads_append, engineCalls_append,
    diagnostics_append]
  refine ⟨?_, ?_, ?_⟩
  · simp [payloads]
  · simp [engineCalls]
  · simp [diagnostics]

theorem negative_status_only_adds_break_witness :
    payloads (decompile (sampleCore (some 4198400) (-1)) .STATEMENTS)
        = payloads (decompile
            { sampleCore (some 4198400) (-1) with
              engine := { (sampleCore (some 4198400) (-1)).engine with
                perform := fun _ => .ok (0, ⟨4198400, 1, []⟩) } } .STATEMENTS)
      ∧ engineCalls (decompile (sampleCore (some 4198400) (-1)) .STATEMENTS)
        = engineCalls (decompile
            { sampleCore (some 4198400) (-1) with
              engine := { (sampleCore (some 4198400) (-1)).engine with
                perform := fun _ => .ok (0, ⟨4198400, 1, []⟩) } } .STATEMENTS)
      ∧ diagnostics (decompile (sampleCore (some 4198400) (-1)) .STATEMENTS)
        = "break\n".toList :: diagnostics (decompile
            { sampleCore (some 4198400) (-1) with
              engine := { (sampleCore (some 4198400) (-1)).engine with
                perform := fun _ => .ok (0, ⟨4198400, 1, []⟩) } } .STATEMENTS) :=
  negative_status_only_adds_break (sampleCore (some 4198400) (-1)) .STATEMENTS 4198400
    ⟨4198400, 0, []⟩ ⟨4198400, 1, []⟩ (-1) 0 rfl rfl rfl rfl (by decide) (by decide)

end R2Ghidra
